import Mathlib

/-!
Verification of the ECMA-376 ingestion scripts.

Shallow embedding of the two Python utilities of this repository:

* `scripts/ingest/extract-pdf.py` — `parse_sections`, `get_parent_section_id`,
  the section-index assembly of `extract_pdf`, and the page-range argument
  parsing of `main`;
* `scripts/ingest/fix-page-numbers.py` — `parse_sections_for_pages` and the
  chunk-update loop of `fix_embedded_file`.

Modelling decisions:

* Text is modelled over Lean `Char`.  Python's `str.strip`, `str.isdigit`,
  `\s`, `\d`, `[A-Z]` (with `re.IGNORECASE`) are modelled over their ASCII
  meaning (space, tab, newline, carriage return, vertical tab, form feed for
  whitespace; `0`–`9` for digits; `A`–`Z`/`a`–`z` for letters).
* The regular expressions of the scripts are fixed; each is translated into a
  deterministic character-list matcher that implements the same (anchored,
  backtracking) match semantics.  For every pattern in the scripts the greedy
  sub-matchers are deterministic: a quantifier is always followed by a literal
  that cannot occur inside the quantified class, so maximal munch is exact.
* `re.match` is anchored at the start only; patterns ending in `$` also
  require the end of the (already `.strip()`-ed, hence newline-free) line.
* File I/O, the PDF converter and `sys.exit` are out of scope; `main`'s
  argument handling is modelled as a pure decision function whose
  `rangeExit`/`usageExit` outcomes correspond to `sys.exit(1)` taken before
  any output file is opened, and whose `run` outcome is the only path on
  which `extract_pdf` (hence any write) is reached.
-/

namespace OoxmlIngest

/-- The ASCII whitespace characters stripped by Python's `str.strip()` and
matched by `\s`. -/
def pySpace (c : Char) : Bool :=
  c == ' ' || c == '\t' || c == '\n' || c == '\r' || c == '\x0b' || c == '\x0c'

/-- Python `str.strip()`: remove leading and trailing whitespace. -/
def pyStrip (l : List Char) : List Char :=
  ((l.dropWhile pySpace).reverse.dropWhile pySpace).reverse

/-- Python `str.startswith(pre)`, first argument the candidate prefix. -/
def pyStartswith : List Char → List Char → Bool
  | [], _ => true
  | _ :: _, [] => false
  | a :: pre, b :: s => a == b && pyStartswith pre s

/-- `[A-Z]` under `re.IGNORECASE` (ASCII). -/
def isAsciiLetter (c : Char) : Bool :=
  ('A' ≤ c && c ≤ 'Z') || ('a' ≤ c && c ≤ 'z')

/-- ASCII lower-casing, for `re.IGNORECASE` literal comparison. -/
def toLowerAscii (c : Char) : Char :=
  if 'A' ≤ c ∧ c ≤ 'Z' then Char.ofNat (c.toNat + 32) else c

/-- Case-insensitive equality of two character lists (ASCII). -/
def ciEq : List Char → List Char → Bool
  | [], [] => true
  | a :: as, b :: bs => (toLowerAscii a == toLowerAscii b) && ciEq as bs
  | _, _ => false

/-- Numeric value of a string of ASCII digits (Python `int` on a digit
string). -/
def toNatDigits (l : List Char) : Nat :=
  l.foldl (fun a c => a * 10 + (c.toNat - 48)) 0

/-- Python `str.split(sep)` for a one-character separator (used with `'\n'`
in both scanners, `'.'` in `get_parent_section_id`, `'-'` in the page-range
argument). -/
def splitChar (c : Char) : List Char → List (List Char)
  | [] => [[]]
  | a :: as =>
    let r := splitChar c as
    if a = c then [] :: r
    else
      match r with
      | [] => [[a]]
      | l :: ls => (a :: l) :: ls

/-- Python `sep.join(parts)` for a one-character separator. -/
def intercalateChar (c : Char) : List (List Char) → List Char
  | [] => []
  | [p] => p
  | p :: ps => p ++ c :: intercalateChar c ps

/-- Greedy parse of the regex fragment `(?:\.\d+)*`: repeatedly consume a dot
followed by a nonempty digit run.  Fuel-indexed for structural recursion; a
fuel of the list's length always suffices (each step consumes at least two
characters). -/
def dotTail : Nat → List Char → (List Char × List Char)
  | 0, l => ([], l)
  | fuel + 1, l =>
    match l with
    | '.' :: r =>
      let ds := r.takeWhile (·.isDigit)
      let r2 := r.dropWhile (·.isDigit)
      if ds.isEmpty then ([], l)
      else
        let p := dotTail fuel r2
        ('.' :: (ds ++ p.1), p.2)
    | _ => ([], l)

/-- Maximal-munch parse of the section-identifier fragment `\d+(?:\.\d+)*`,
returning the matched identifier and the rest of the line. -/
def munchNumId (l : List Char) : Option (List Char × List Char) :=
  let ds := l.takeWhile (·.isDigit)
  let r := l.dropWhile (·.isDigit)
  if ds.isEmpty then none
  else
    let p := dotTail r.length r
    some (ds ++ p.1, p.2)

/-- Extractor pattern (i), `^\*\*(\d+(?:\.\d+)*)\*\*\s*\*\*([^*]+)\*\*`
(`**12.3.2** **Title**`): bold identifier then bold title on one line.
Returns (group 1, group 2). -/
def matchP1 (s : List Char) : Option (List Char × List Char) :=
  match s with
  | '*' :: '*' :: r =>
    match munchNumId r with
    | none => none
    | some (sid, r2) =>
      match r2 with
      | '*' :: '*' :: r3 =>
        match r3.dropWhile pySpace with
        | '*' :: '*' :: r5 =>
          let t := r5.takeWhile (· != '*')
          let r6 := r5.dropWhile (· != '*')
          if t.isEmpty then none
          else
            match r6 with
            | '*' :: '*' :: _ => some (sid, t)
            | _ => none
        | _ => none
      | _ => none
  | _ => none

/-- Extractor pattern (ii), `^(\d+(?:\.\d+)*)\s+([A-Z][^\n]+)` with
`re.IGNORECASE` (`12.3.2 Title`): identifier, whitespace, a letter and at
least one further character.  Returns (group 1, group 2). -/
def matchP2 (s : List Char) : Option (List Char × List Char) :=
  match munchNumId s with
  | none => none
  | some (sid, r) =>
    let ws := r.takeWhile pySpace
    let r2 := r.dropWhile pySpace
    if ws.isEmpty then none
    else
      match r2 with
      | a :: rest =>
        if isAsciiLetter a && !rest.isEmpty then some (sid, a :: rest) else none
      | [] => none

/-- Extractor pattern (iii),
`^\*?(Annex\s+[A-Z])\*?\s*(?:\(([^)]+)\))?\s*(.*)$` with `re.IGNORECASE`:
optional star, case-insensitive `Annex`, whitespace, a letter, then optional
star and optional parenthetical qualifier.  Returns (group 1 — with the
original casing of the input — and group 2, the parenthetical, when
present). -/
def matchP3 (s : List Char) : Option (List Char × Option (List Char)) :=
  let s1 := match s with | '*' :: r => r | r => r
  match s1 with
  | c1 :: c2 :: c3 :: c4 :: c5 :: r =>
    if ciEq [c1, c2, c3, c4, c5] "annex".data then
      let ws := r.takeWhile pySpace
      let r2 := r.dropWhile pySpace
      if ws.isEmpty then none
      else
        match r2 with
        | a :: r3 =>
          if isAsciiLetter a then
            let sid := c1 :: c2 :: c3 :: c4 :: c5 :: (ws ++ [a])
            let r4 := match r3 with | '*' :: t => t | t => t
            let r5 := r4.dropWhile pySpace
            let paren : Option (List Char) :=
              match r5 with
              | '(' :: t =>
                let p := t.takeWhile (· != ')')
                let t2 := t.dropWhile (· != ')')
                match t2 with
                | ')' :: _ => if p.isEmpty then none else some p
                | _ => none
              | _ => none
            some (sid, paren)
          else none
        | [] => none
    else none
  | _ => none

/-- The extractor's header test: the three patterns tried in order,
first match wins; the title recorded for a match is `groups[1]`
(`None` becomes `""` in `parse_sections`). -/
def extMatchHeader (s : List Char) : Option (List Char × List Char) :=
  match matchP1 s with
  | some r => some r
  | none =>
    match matchP2 s with
    | some r => some r
    | none =>
      match matchP3 s with
      | some (sid, p) => some (sid, p.getD [])
      | none => none

/-- Depth assigned by `parse_sections`: 1 for identifiers starting with
`"Annex"`, otherwise the dot count plus one. -/
def sectionDepth (sid : String) : Nat :=
  if pyStartswith "Annex".data sid.data then 1 else sid.data.count '.' + 1

/-- `get_parent_section_id` of `extract-pdf.py`: `None` for annexes and
single-component identifiers, otherwise the dot-joined components minus the
last one. -/
def get_parent_section_id (sid : String) : Option String :=
  if pyStartswith "Annex".data sid.data then none
  else
    let parts := splitChar '.' sid.data
    if parts.length ≤ 1 then none
    else some (String.mk (intercalateChar '.' parts.dropLast))

/-- One record of the `sections` output of `parse_sections` (the keys of the
Python dict, in order). -/
structure Section where
  sectionId : String
  title : String
  pageStart : Nat
  pageEnd : Nat
  content : String
  depth : Nat
  parentId : Option String
  deriving DecidableEq

/-- The still-open current section of the scan (its content and end page are
filled in when it is closed). -/
structure OpenSec where
  sectionId : String
  title : String
  pageStart : Nat
  depth : Nat
  parentId : Option String
  deriving DecidableEq

/-- The loop state of `parse_sections`: emitted sections, the open current
section, its accumulated content lines, and the current page counter. -/
structure ExtSt where
  sections : List Section
  current : Option OpenSec
  content : List (List Char)
  page : Nat

/-- The extractor's page-marker acceptance core: the candidate value `n`
replaces the current page `P` only when `n > P` and `n < P + 10`. -/
def extAcceptPage (P n : Nat) : Nat :=
  if n > P ∧ n < P + 10 then n else P

/-- The extractor's page-tracking step for one line: a stripped line that is
a nonempty digit string of at most four characters is a candidate page
marker. -/
def extUpdatePage (P : Nat) (line : List Char) : Nat :=
  if pyStrip line ≠ [] ∧ (pyStrip line).all (·.isDigit) = true ∧ (pyStrip line).length ≤ 4 then
    extAcceptPage P (toNatDigits (pyStrip line))
  else P

/-- Open a new current section from a matched header (`parse_sections`,
"Start new section"): the title is stripped, depth and parent are computed
from the identifier. -/
def mkOpen (sid title : List Char) (page : Nat) : OpenSec :=
  let idStr := String.mk sid
  { sectionId := idStr
    title := String.mk (pyStrip title)
    pageStart := page
    depth := sectionDepth idStr
    parentId := get_parent_section_id idStr }

/-- The content stored for a block of accumulated lines:
`'\n'.join(current_content).strip()`. -/
def contentOfBlock (b : List (List Char)) : String :=
  String.mk (pyStrip (intercalateChar '\n' b))

/-- Close the current section: content is the newline-join of the
accumulated lines, stripped; the end page is the current page. -/
def closeSec (o : OpenSec) (content : List (List Char)) (pageEnd : Nat) : Section :=
  { sectionId := o.sectionId
    title := o.title
    pageStart := o.pageStart
    pageEnd := pageEnd
    content := contentOfBlock content
    depth := o.depth
    parentId := o.parentId }

/-- One iteration of the `parse_sections` loop: update the page counter,
then test the line (stripped) against the header patterns; on a header,
close the current section (if any) and open a new one seeded with the header
line; otherwise append the raw line to the open section's content. -/
def extStep (st : ExtSt) (line : List Char) : ExtSt :=
  let page := extUpdatePage st.page line
  match extMatchHeader (pyStrip line) with
  | some (sid, title) =>
    let closed :=
      match st.current with
      | some o => st.sections ++ [closeSec o st.content page]
      | none => st.sections
    { sections := closed
      current := some (mkOpen sid title page)
      content := [line]
      page := page }
  | none =>
    match st.current with
    | some _ => { st with content := st.content ++ [line], page := page }
    | none => { st with page := page }

/-- End of input: close and append the still-open section. -/
def extFinish (st : ExtSt) : List Section :=
  match st.current with
  | some o => st.sections ++ [closeSec o st.content st.page]
  | none => st.sections

/-- Run the `parse_sections` loop over the remaining lines. -/
def extRun : ExtSt → List (List Char) → List Section
  | st, [] => extFinish st
  | st, l :: ls => extRun (extStep st l) ls

/-- `parse_sections` on an already-split list of lines. -/
def parseSectionsLines (lines : List (List Char)) (startPage : Nat) : List Section :=
  extRun { sections := [], current := none, content := [], page := startPage } lines

/-- `parse_sections` of `extract-pdf.py`: split the markdown on newlines and
scan. -/
def parse_sections (mdText : String) (startPage : Nat) : List Section :=
  parseSectionsLines (splitChar '\n' mdText.data) startPage

/-- One entry of the `section-index.json` artifact (the keys of the Python
dict comprehension of `extract_pdf`, in order). -/
structure IndexEntry where
  sectionId : String
  title : String
  depth : Nat
  parentId : Option String
  pageStart : Nat
  pageEnd : Nat
  contentLength : Nat
  deriving DecidableEq

/-- The section-index assembly of `extract_pdf`: project every section,
replacing the content by its character length. -/
def buildSectionIndex (secs : List Section) : List IndexEntry :=
  secs.map (fun s =>
    { sectionId := s.sectionId
      title := s.title
      depth := s.depth
      parentId := s.parentId
      pageStart := s.pageStart
      pageEnd := s.pageEnd
      contentLength := s.content.length })

/-- Repairer pattern (Part 1 style),
`^\*\*(\d+(?:\.\d+)*)\*\*\s*\*\*([^*]+)\*\*$`: as the extractor's pattern
(i) but anchored at the end of the stripped line.  Only group 1 is used by
`parse_sections_for_pages`. -/
def matchF1 (s : List Char) : Option (List Char) :=
  match s with
  | '*' :: '*' :: r =>
    match munchNumId r with
    | none => none
    | some (sid, r2) =>
      match r2 with
      | '*' :: '*' :: r3 =>
        match r3.dropWhile pySpace with
        | '*' :: '*' :: r5 =>
          let t := r5.takeWhile (· != '*')
          let r6 := r5.dropWhile (· != '*')
          if t.isEmpty then none
          else
            match r6 with
            | '*' :: '*' :: rest => if rest.isEmpty then some sid else none
            | _ => none
        | _ => none
      | _ => none
  | _ => none

/-- Repairer pattern (Part 2/3/4 style),
`^#+\s*\*\*(\d+(?:\.\d+)*)\.?\s+([^*]+)\*\*$`: hashes, optional whitespace,
bold identifier with optional trailing dot, whitespace, title, end of
line. -/
def matchF2 (s : List Char) : Option (List Char) :=
  let hs := s.takeWhile (· == '#')
  let r0 := s.dropWhile (· == '#')
  if hs.isEmpty then none
  else
    match r0.dropWhile pySpace with
    | '*' :: '*' :: r2 =>
      match munchNumId r2 with
      | none => none
      | some (sid, r3) =>
        let r4 := match r3 with | '.' :: t => t | t => t
        let ws := r4.takeWhile pySpace
        let r5 := r4.dropWhile pySpace
        if ws.isEmpty then none
        else
          let t := r5.takeWhile (· != '*')
          let r6 := r5.dropWhile (· != '*')
          if t.isEmpty then none
          else
            match r6 with
            | '*' :: '*' :: rest => if rest.isEmpty then some sid else none
            | _ => none
    | _ => none

/-- Repairer annex pattern,
`^\*\*(Annex\s+[A-Z])\*\*\s*(?:\*\*)?(?:\(([^)]+)\))?(?:\*\*)?\s*(.*)$`
with `re.IGNORECASE`: the bolded annex label; the optional tail always
matches.  Only group 1 is used. -/
def matchF3 (s : List Char) : Option (List Char) :=
  match s with
  | '*' :: '*' :: r =>
    match r with
    | c1 :: c2 :: c3 :: c4 :: c5 :: r1 =>
      if ciEq [c1, c2, c3, c4, c5] "annex".data then
        let ws := r1.takeWhile pySpace
        let r2 := r1.dropWhile pySpace
        if ws.isEmpty then none
        else
          match r2 with
          | a :: '*' :: '*' :: _ =>
            if isAsciiLetter a then some (c1 :: c2 :: c3 :: c4 :: c5 :: (ws ++ [a]))
            else none
          | _ => none
      else none
    | _ => none
  | _ => none

/-- The repairer's header test: its three patterns in order, first match
wins; only the identifier (group 1) is recorded. -/
def fixMatchHeader (s : List Char) : Option (List Char) :=
  match matchF1 s with
  | some sid => some sid
  | none =>
    match matchF2 s with
    | some sid => some sid
    | none => matchF3 s

/-- The repairer's running-header skip, `^ECMA-376 Part \d` (no flags):
the literal prefix followed by a digit. -/
def ecmaRunningHead (s : List Char) : Bool :=
  pyStartswith "ECMA-376 Part ".data s &&
    match s.drop 14 with
    | c :: _ => c.isDigit
    | [] => false

/-- The repairer's page-marker shape, `^(\d+)$`: the whole stripped line is
a nonempty digit string (no length bound, unlike the extractor). -/
def isArabicPageLine (s : List Char) : Bool :=
  !s.isEmpty && s.all (·.isDigit)

/-- The repairer's table-of-contents skip,
`^\d+(?:\.\d+)*\s+.+\.{2,}\s*\d+$`: identifier, whitespace, at least one
filler character, two or more dot leaders, optional whitespace, a trailing
page number.  The backtracking match succeeds exactly when, after the
maximal identifier and one whitespace character, stripping the maximal
trailing digit run (nonempty) and then trailing whitespace leaves a string
of length at least three ending in two dots. -/
def tocMatch (s : List Char) : Bool :=
  match munchNumId s with
  | none => false
  | some (_, r) =>
    match r with
    | w :: rest =>
      if pySpace w then
        let rev := rest.reverse
        let nds := rev.takeWhile (·.isDigit)
        let r1 := rev.dropWhile (·.isDigit)
        if nds.isEmpty then false
        else
          match r1.dropWhile pySpace with
          | '.' :: '.' :: rrest => !rrest.isEmpty
          | _ => false
      else false
    | [] => false

/-- The repairer's page-marker acceptance core (`parse_sections_for_pages`):
`some n` when the candidate is accepted (`n ≥ P` and `n < P + 50`, after
which the loop `continue`s), `none` when it is rejected and the line falls
through to the remaining tests. -/
def fixAcceptPage (P n : Nat) : Option Nat :=
  if n ≥ P ∧ n < P + 50 then some n else none

/-- The loop state of `parse_sections_for_pages`: the page map (a Python
dict, modelled as an insertion-ordered association list) and the current
page counter. -/
structure FixSt where
  pages : List (String × Nat)
  page : Nat
  deriving DecidableEq

/-- Python dict assignment `d[k] = v`: update the existing entry in place,
else append. -/
def dictSet : List (String × Nat) → String → Nat → List (String × Nat)
  | [], k, v => [(k, v)]
  | p :: t, k, v => if p.1 = k then (k, v) :: t else p :: dictSet t k v

/-- Python dict lookup (`k in d` / `d[k]` combined). -/
def dictGet (m : List (String × Nat)) (k : String) : Option Nat :=
  (m.find? (fun p => p.1 == k)).map (·.2)

/-- The tail of one `parse_sections_for_pages` iteration, after the
running-header and page-marker tests: skip table-of-contents lines, then
record `current_page + 1` for a matched header identifier. -/
def fixHeaderStep (st : FixSt) (s : List Char) : FixSt :=
  if tocMatch s then st
  else
    match fixMatchHeader s with
    | some sid => { st with pages := dictSet st.pages (String.mk sid) (st.page + 1) }
    | none => st

/-- One iteration of the `parse_sections_for_pages` loop over a raw line:
strip, skip running headers, accept in-window page markers (with
`continue`), otherwise fall through to the TOC and header tests. -/
def fixStep (st : FixSt) (line : List Char) : FixSt :=
  let s := pyStrip line
  if ecmaRunningHead s then st
  else if isArabicPageLine s then
    match fixAcceptPage st.page (toNatDigits s) with
    | some n => { st with page := n }
    | none => fixHeaderStep st s
  else fixHeaderStep st s

/-- Run the `parse_sections_for_pages` loop. -/
def fixRun : FixSt → List (List Char) → FixSt
  | st, [] => st
  | st, l :: ls => fixRun (fixStep st l) ls

/-- `parse_sections_for_pages` of `fix-page-numbers.py`: scan the markdown
and return the section-identifier → page-number map. -/
def parse_sections_for_pages (mdText : String) (startPage : Nat) : List (String × Nat) :=
  (fixRun { pages := [], page := startPage } (splitChar '\n' mdText.data)).pages

/-- One embedded chunk, as consumed by `fix_embedded_file`: a section
identifier (absent or `null` modelled as `none`), a page number, and the
remaining fields (opaque payload, passed through unmodified). -/
structure Chunk where
  sectionId : Option String
  pageNumber : Option Int
  rest : String
  deriving DecidableEq

/-- Python truthiness of `chunk.get("sectionId")`: `None` and `""` are
falsy. -/
def chunkSidTruthy (c : Chunk) : Bool :=
  match c.sectionId with
  | some s => !(s == "")
  | none => false

/-- The chunk-update loop of `fix_embedded_file`: returns the (in-place
updated) chunk list, the number of chunks whose page number changed, and
the set of truthy identifiers missing from the page map.  The missing set
is kept as a duplicate-free list; Python's `set` has no observable
order. -/
def fix_embedded_chunks (pages : List (String × Nat)) :
    List Chunk → List Chunk × Nat × List String
  | [] => ([], 0, [])
  | c :: cs =>
    let r := fix_embedded_chunks pages cs
    match c.sectionId with
    | some sid =>
      if sid ≠ "" then
        match dictGet pages sid with
        | some v =>
          if c.pageNumber ≠ some (v : Int) then
            ({ c with pageNumber := some (v : Int) } :: r.1, r.2.1 + 1, r.2.2)
          else (c :: r.1, r.2.1, r.2.2)
        | none =>
          (c :: r.1, r.2.1, if sid ∈ r.2.2 then r.2.2 else sid :: r.2.2)
      else (c :: r.1, r.2.1, r.2.2)
    | none => (c :: r.1, r.2.1, r.2.2)

/-- Python `int(s)` (ASCII model): optional surrounding whitespace, optional
sign, then digit groups separated by single underscores. -/
def pyIntDigitGroups : Nat → List Char → Option Nat
  | _, [] => none
  | fuel, l =>
    let ds := l.takeWhile (·.isDigit)
    let r := l.dropWhile (·.isDigit)
    if ds.isEmpty then none
    else
      match r with
      | [] => some (toNatDigits ds)
      | '_' :: r2 =>
        match fuel with
        | 0 => none
        | fuel + 1 =>
          match pyIntDigitGroups fuel r2 with
          | some _ =>
            match (ds ++ r.filter (· != '_')) with
            | all => some (toNatDigits all)
          | none => none
      | _ => none

/-- Python `int(s)` on a string, as used for the page-range bounds: `none`
models `ValueError`. -/
def pyInt (l : List Char) : Option Int :=
  let t := pyStrip l
  match t with
  | '+' :: r => (pyIntDigitGroups r.length r).map (fun n => (n : Int))
  | '-' :: r => (pyIntDigitGroups r.length r).map (fun n => -(n : Int))
  | r => (pyIntDigitGroups r.length r).map (fun n => (n : Int))

/-- The page-range parse of `main` (`extract-pdf.py`):
`start, end = arg.split("-"); (int(start), int(end))`, with any
`ValueError` (not exactly two parts, or a non-integer part) giving
`none`. -/
def pyParseRange (s : String) : Option (Int × Int) :=
  match splitChar '-' s.data with
  | [a, b] =>
    match pyInt a, pyInt b with
    | some x, some y => some (x, y)
    | _, _ => none
  | _ => none

/-- The outcome of `main`'s argument phase: usage error (fewer than two
arguments), invalid page range, or proceeding to extraction with the parsed
range. -/
inductive MainDecision where
  | usageExit
  | rangeExit
  | run (pageRange : Option (Int × Int))
  deriving DecidableEq

/-- `main` of `extract-pdf.py` up to the point where `extract_pdf` would be
invoked, over `sys.argv[1:]`: the `--pages` value is parsed only when
present; a malformed value aborts. -/
def mainDecision (args : List String) : MainDecision :=
  if args.length < 2 then .usageExit
  else if h2 : 2 < args.length then
    if args.get ⟨2, h2⟩ = "--pages" then
      if h3 : 3 < args.length then
        match pyParseRange (args.get ⟨3, h3⟩) with
        | some pr => .run (some pr)
        | none => .rangeExit
      else .run none
    else .run none
  else .run none

/-- Process exit code implied by a decision: both error outcomes call
`sys.exit(1)`; `run` continues into `extract_pdf`. -/
def decisionExitCode : MainDecision → Option Nat
  | .usageExit => some 1
  | .rangeExit => some 1
  | .run _ => none

/-- Whether a decision reaches `extract_pdf`, the only code that opens or
writes any output artifact. -/
def decisionReachesExtraction : MainDecision → Bool
  | .run _ => true
  | _ => false

/-- A concrete section record used to instantiate index-consistency. -/
def demoSection : Section :=
  { sectionId := "1", title := "T", pageStart := 1, pageEnd := 2,
    content := "abc", depth := 1, parentId := none }

/-- Specification-side decomposition of a line list into the lines before
the first header and the header-started blocks: a header line starts a new
block, a non-header line extends the block in progress (or the dropped
prefix when no header has been seen yet). -/
def blocksAux : List (List Char) → (List (List Char) × List (List (List Char)))
  | [] => ([], [])
  | l :: ls =>
    let r := blocksAux ls
    if (extMatchHeader (pyStrip l)).isSome then ([], (l :: r.1) :: r.2)
    else (l :: r.1, r.2)

/-- Invariant of the `parse_sections` loop state: emitted sections have
ordered page bounds and chain end-to-start; an open section starts no later
than the current page and continues exactly where the last emitted section
ended; before the first header nothing has been emitted. -/
def ExtInv (st : ExtSt) : Prop :=
  (∀ s ∈ st.sections, s.pageStart ≤ s.pageEnd) ∧
  List.Chain' (fun a b => a.pageEnd = b.pageStart) st.sections ∧
  (∀ o, st.current = some o →
    o.pageStart ≤ st.page ∧ ∀ x ∈ st.sections.getLast?, x.pageEnd = o.pageStart) ∧
  (st.current = none → st.sections = [])

/-- A dotted numeric identifier, presented by its dot-separated components:
each component is a nonempty digit string and the identifier is their
dot-join. -/
def NumericIdParts (ps : List (List Char)) (sid : String) : Prop :=
  ps ≠ [] ∧ (∀ p ∈ ps, p ≠ [] ∧ p.all (·.isDigit) = true) ∧
    sid.data = intercalateChar '.' ps

/-- The shape of every annex identifier captured by the annex patterns
(group 1 of extractor pattern (iii) and of the repairer's annex pattern): a
case-insensitive `Annex`, a nonempty whitespace run, one letter. -/
def AnnexIdShape (sid : String) : Prop :=
  ∃ pre ws a, sid.data = pre ++ ws ++ [a] ∧
    ciEq pre "annex".data = true ∧ ws ≠ [] ∧
    (∀ w ∈ ws, pySpace w = true) ∧ isAsciiLetter a = true

/-! ## General lemmas -/

theorem dictGet_dictSet_self (m : List (String × Nat)) (k : String) (v : Nat) :
    dictGet (dictSet m k v) k = some v := by
  induction m with
  | nil => simp [dictSet, dictGet, List.find?]
  | cons p t ih =>
    by_cases h : p.1 = k
    · simp [dictSet, h, dictGet, List.find?]
    · simp only [dictSet, if_neg h, dictGet, List.find?]
      rw [show (p.1 == k) = false from beq_eq_false_iff_ne.mpr h]
      exact ih

theorem extAcceptPage_eq (P c : Nat) :
    extAcceptPage P c = if P ≤ c ∧ c < P + 10 then c else P := by
  unfold extAcceptPage
  by_cases h : P ≤ c ∧ c < P + 10
  · rw [if_pos h]
    by_cases h2 : c > P ∧ c < P + 10
    · rw [if_pos h2]
    · rw [if_neg h2]; omega
  · rw [if_neg h, if_neg (by omega)]

theorem le_extAcceptPage (P c : Nat) : P ≤ extAcceptPage P c := by
  rw [extAcceptPage_eq]; split <;> omega

theorem le_extUpdatePage (P : Nat) (line : List Char) : P ≤ extUpdatePage P line := by
  unfold extUpdatePage
  split
  · exact le_extAcceptPage _ _
  · exact Nat.le_refl _

/-! ## Claim C1 -/

/-- Claim C1 as stated is false: on the six-line input with the bold
identifier and bold title on separate lines, `parse_sections` yields no
section at all (the bold pattern requires both on one line, and no other
pattern matches any of the six lines), rather than the two claimed
sections. -/
theorem c1_counterexample :
    parse_sections "**12.3**\n**Overview**\nSome text\n**12.4**\n**Details**\nMore text" 1
      = [] ∧
    (parse_sections "**12.3**\n**Overview**\nSome text\n**12.4**\n**Details**\nMore text" 1).length
      ≠ 2 := by
  constructor
  · decide
  · decide

/-- Claim C1, amended: the six-line input with identifier and title on
separate lines yields zero sections; on the four-line variant with each
bold identifier and bold title joined on one line, the scanner yields
exactly the two claimed sections (identifiers 12.3 and 12.4, depth 2,
parent 12, pageStart 1, pageEnd 1). -/
theorem c1_amended_theorem :
    parse_sections "**12.3** **Overview**\nSome text\n**12.4** **Details**\nMore text" 1 =
      [{ sectionId := "12.3", title := "Overview", pageStart := 1, pageEnd := 1,
         content := "**12.3** **Overview**\nSome text", depth := 2, parentId := some "12" },
       { sectionId := "12.4", title := "Details", pageStart := 1, pageEnd := 1,
         content := "**12.4** **Details**\nMore text", depth := 2, parentId := some "12" }] := by
  decide

/-! ## Claim C3 -/

/-- Claim C3: in both scanners the page counter moves to a candidate value
`c` exactly when `P ≤ c < P + 10` (extractor) respectively
`P ≤ c < P + 50` (repairer), and any candidate outside the window leaves it
unchanged.  (The extractor tests `c > P`, but `c = P` is a fixed point, so
the observable update condition is the claimed closed window.) -/
theorem c3_page_window (P c : Nat) :
    (extAcceptPage P c = c ↔ (P ≤ c ∧ c < P + 10)) ∧
    (¬(P ≤ c ∧ c < P + 10) → extAcceptPage P c = P) ∧
    ((fixAcceptPage P c).getD P = c ↔ (P ≤ c ∧ c < P + 50)) ∧
    (¬(P ≤ c ∧ c < P + 50) → (fixAcceptPage P c).getD P = P) := by
  have hfix : (fixAcceptPage P c).getD P = if P ≤ c ∧ c < P + 50 then c else P := by
    unfold fixAcceptPage
    by_cases h : c ≥ P ∧ c < P + 50
    · rw [if_pos h, if_pos (by omega)]; rfl
    · rw [if_neg h, if_neg (by omega)]; rfl
  rw [extAcceptPage_eq, hfix]
  refine ⟨?_, ?_, ?_, ?_⟩
  · by_cases h : P ≤ c ∧ c < P + 10
    · rw [if_pos h]; exact iff_of_true rfl h
    · rw [if_neg h]
      constructor
      · intro he; omega
      · intro hw; exact absurd hw h
  · intro h; rw [if_neg h]
  · by_cases h : P ≤ c ∧ c < P + 50
    · rw [if_pos h]; exact iff_of_true rfl h
    · rw [if_neg h]
      constructor
      · intro he; omega
      · intro hw; exact absurd hw h
  · intro h; rw [if_neg h]

/-- Witness for C3: concrete instances of the window characterization. -/
theorem c3_witness :
    extAcceptPage 9 12 = 12 ∧ extAcceptPage 9 30 = 9 ∧
    (fixAcceptPage 9 30).getD 9 = 30 ∧ (fixAcceptPage 9 100).getD 9 = 9 :=
  ⟨(c3_page_window 9 12).1.mpr (by omega),
   (c3_page_window 9 30).2.1 (by omega),
   (c3_page_window 9 30).2.2.1.mpr (by omega),
   (c3_page_window 9 100).2.2.2 (by omega)⟩

/-! ## Claim C4 -/

/-- Claim C4 as stated is false: the recorded page is `P + 1` at the moment
a header is detected, but a later occurrence of the same identifier
overwrites the entry, so the *resulting* map need not hold `P + 1` for an
earlier detection.  Concretely, the header `**5.1** **A**` alone (detected
at counter 1) leaves entry 2, but followed by a page marker `3` and a
duplicate header the resulting map holds 4, not 2, even though the first
header was still detected at counter 1. -/
theorem c4_counterexample :
    parse_sections_for_pages "**5.1** **A**" 1 = [("5.1", 2)] ∧
    parse_sections_for_pages "**5.1** **A**\n3\n**5.1** **B**" 1 = [("5.1", 4)] := by
  constructor
  · decide
  · decide

/-- Claim C4, amended: whenever a line passes the skip tests (running
header, accepted page marker, table-of-contents entry) and matches a header
pattern with identifier `sid` while the counter is `P`, the scanner sets the
map entry for `sid` to `P + 1` at that point; duplicate identifiers
overwrite (last wins), so the resulting map holds `P + 1` for the last
occurrence.  In particular an identifier 5.1 (last) matched at counter 9 is
recorded as 10. -/
theorem c4_amended_theorem (st : FixSt) (line : List Char) (sid : List Char)
    (hecma : ecmaRunningHead (pyStrip line) = false)
    (hpage : isArabicPageLine (pyStrip line) = false)
    (htoc : tocMatch (pyStrip line) = false)
    (hmatch : fixMatchHeader (pyStrip line) = some sid) :
    dictGet (fixStep st line).pages (String.mk sid) = some (st.page + 1) := by
  unfold fixStep
  simp only [hecma, hpage, Bool.false_eq_true, if_false]
  unfold fixHeaderStep
  simp only [htoc, Bool.false_eq_true, if_false, hmatch]
  exact dictGet_dictSet_self _ _ _

/-- Witness for C4: the header `**5.1** **Title**` matched while the
counter sits at 9 records page 10 for identifier 5.1. -/
theorem c4_witness :
    dictGet (fixStep { pages := [], page := 9 } "**5.1** **Title**".data).pages "5.1"
      = some 10 :=
  c4_amended_theorem { pages := [], page := 9 } "**5.1** **Title**".data "5.1".data
    (by decide) (by decide) (by decide) (by decide)

/-! ## Claim C6 -/

/-- Claim C6: the derived section index has exactly as many entries as the
section list, corresponding entries agree on identifier, title, depth,
parent and page bounds, and each entry's content length is the character
length of the section's content. -/
theorem c6_index_consistent (secs : List Section) (i : Nat) (h : i < secs.length) :
    (buildSectionIndex secs).length = secs.length ∧
    ∃ e s, (buildSectionIndex secs)[i]? = some e ∧ secs[i]? = some s ∧
      e.sectionId = s.sectionId ∧ e.title = s.title ∧ e.depth = s.depth ∧
      e.parentId = s.parentId ∧ e.pageStart = s.pageStart ∧ e.pageEnd = s.pageEnd ∧
      e.contentLength = s.content.length := by
  refine ⟨by simp [buildSectionIndex], ?_⟩
  obtain ⟨s, hs⟩ : ∃ s, secs[i]? = some s := by
    rw [List.getElem?_eq_getElem h]; exact ⟨_, rfl⟩
  refine ⟨{ sectionId := s.sectionId, title := s.title, depth := s.depth,
            parentId := s.parentId, pageStart := s.pageStart, pageEnd := s.pageEnd,
            contentLength := s.content.length },
          s, ?_, hs, rfl, rfl, rfl, rfl, rfl, rfl, rfl⟩
  rw [buildSectionIndex, List.getElem?_map, hs]
  rfl

/-- Witness for C6 at a one-section list. -/
theorem c6_witness :
    (buildSectionIndex [demoSection]).length = [demoSection].length ∧
    ∃ e s, (buildSectionIndex [demoSection])[0]? = some e ∧
      [demoSection][0]? = some s ∧
      e.sectionId = s.sectionId ∧ e.title = s.title ∧ e.depth = s.depth ∧
      e.parentId = s.parentId ∧ e.pageStart = s.pageStart ∧ e.pageEnd = s.pageEnd ∧
      e.contentLength = s.content.length :=
  c6_index_consistent [demoSection] 0 (by decide)

/-! ## Claim C8 -/

/-- Claim C8: an extractor invocation whose `--pages` value does not parse
as two dash-separated integers reaches the invalid-range outcome: it exits
with code 1 and never reaches `extract_pdf`, the only code that writes any
output artifact. -/
theorem c8_invalid_range (p o rs : String) (rest : List String)
    (h : pyParseRange rs = none) :
    mainDecision (p :: o :: "--pages" :: rs :: rest) = MainDecision.rangeExit ∧
    decisionExitCode (mainDecision (p :: o :: "--pages" :: rs :: rest)) = some 1 ∧
    decisionReachesExtraction (mainDecision (p :: o :: "--pages" :: rs :: rest)) = false := by
  have h2 : 2 < (p :: o :: "--pages" :: rs :: rest).length := by
    simp only [List.length_cons]; omega
  have h3 : 3 < (p :: o :: "--pages" :: rs :: rest).length := by
    simp only [List.length_cons]; omega
  have hnot : ¬((p :: o :: "--pages" :: rs :: rest).length < 2) := by
    simp only [List.length_cons]; omega
  have hm : mainDecision (p :: o :: "--pages" :: rs :: rest) = MainDecision.rangeExit := by
    unfold mainDecision
    rw [if_neg hnot, dif_pos h2,
      if_pos (show (p :: o :: "--pages" :: rs :: rest).get ⟨2, h2⟩ = "--pages" from rfl),
      dif_pos h3]
    rw [show (p :: o :: "--pages" :: rs :: rest).get ⟨3, h3⟩ = rs from rfl, h]
  exact ⟨hm, by rw [hm]; rfl, by rw [hm]; rfl⟩

/-- Witness for C8: the malformed range `10-20-30` (three dash-separated
parts) aborts. -/
theorem c8_witness :
    mainDecision ["doc.pdf", "out", "--pages", "10-20-30"] = MainDecision.rangeExit ∧
    decisionExitCode (mainDecision ["doc.pdf", "out", "--pages", "10-20-30"]) = some 1 ∧
    decisionReachesExtraction (mainDecision ["doc.pdf", "out", "--pages", "10-20-30"]) = false :=
  c8_invalid_range "doc.pdf" "out" "10-20-30" [] (by decide)

/-! ## Claim C5 -/

/-- Claim C5: running the chunk-update loop a second time with the same page
map changes nothing: every chunk whose identifier is mapped already carries
the mapped page number after the first run, so the second run reports zero
updates and returns the collection unchanged. -/
theorem c5_idempotent (pages : List (String × Nat)) (cs : List Chunk) :
    (fix_embedded_chunks pages (fix_embedded_chunks pages cs).1).1
      = (fix_embedded_chunks pages cs).1 ∧
    (fix_embedded_chunks pages (fix_embedded_chunks pages cs).1).2.1 = 0 := by
  induction cs with
  | nil => exact ⟨rfl, rfl⟩
  | cons c cs ih =>
    obtain ⟨ih1, ih2⟩ := ih
    cases hs : c.sectionId with
    | none => constructor <;> simp [fix_embedded_chunks, hs, ih1, ih2]
    | some sid =>
      by_cases hemp : sid = ""
      · subst hemp
        constructor <;> simp [fix_embedded_chunks, hs, ih1, ih2]
      · cases hd : dictGet pages sid with
        | none => constructor <;> simp [fix_embedded_chunks, hs, hemp, hd, ih1, ih2]
        | some v =>
          by_cases hpn : c.pageNumber = some (v : Int)
          · constructor <;> simp [fix_embedded_chunks, hs, hemp, hd, hpn, ih1, ih2]
          · constructor <;> simp [fix_embedded_chunks, hs, hemp, hd, hpn, ih1, ih2]

/-! ## Claim C10 -/

/-- Claim C10: a chunk whose section identifier is absent or empty is
returned entirely unchanged by the chunk-update loop, and the missing set
contains exactly the nonempty identifiers present in chunks but absent from
the page map. -/
theorem c10_frame_missing (pages : List (String × Nat)) (cs : List Chunk) :
    List.Forall₂ (fun c c' => chunkSidTruthy c = false → c' = c)
      cs (fix_embedded_chunks pages cs).1 ∧
    ∀ s : String, s ∈ (fix_embedded_chunks pages cs).2.2 ↔
      ∃ c ∈ cs, c.sectionId = some s ∧ s ≠ "" ∧ dictGet pages s = none := by
  induction cs with
  | nil => exact ⟨List.Forall₂.nil, by simp [fix_embedded_chunks]⟩
  | cons c cs ih =>
    obtain ⟨ih1, ih2⟩ := ih
    cases hs : c.sectionId with
    | none =>
      constructor
      · simp only [fix_embedded_chunks, hs]
        exact List.Forall₂.cons (fun _ => rfl) ih1
      · intro s
        simp only [fix_embedded_chunks, hs]
        constructor
        · intro hm
          obtain ⟨c', hc', hconj⟩ := (ih2 s).mp hm
          exact ⟨c', List.mem_cons_of_mem _ hc', hconj⟩
        · rintro ⟨c', hc', h1, h2, h3⟩
          rcases List.mem_cons.mp hc' with rfl | hmem
          · rw [hs] at h1; cases h1
          · exact (ih2 s).mpr ⟨c', hmem, h1, h2, h3⟩
    | some sid =>
      by_cases hemp : sid = ""
      · subst hemp
        constructor
        · simp only [fix_embedded_chunks, hs]
          simp only [ne_eq, not_true_eq_false, if_false]
          exact List.Forall₂.cons (fun _ => rfl) ih1
        · intro s
          simp only [fix_embedded_chunks, hs]
          simp only [ne_eq, not_true_eq_false, if_false]
          constructor
          · intro hm
            obtain ⟨c', hc', hconj⟩ := (ih2 s).mp hm
            exact ⟨c', List.mem_cons_of_mem _ hc', hconj⟩
          · rintro ⟨c', hc', h1, h2, h3⟩
            rcases List.mem_cons.mp hc' with rfl | hmem
            · rw [hs] at h1
              cases h1
              exact absurd rfl h2
            · exact (ih2 s).mpr ⟨c', hmem, h1, h2, h3⟩
      · have htr : chunkSidTruthy c = true := by
          simp [chunkSidTruthy, hs, hemp]
        cases hd : dictGet pages sid with
        | none =>
          constructor
          · simp only [fix_embedded_chunks, hs]
            simp only [ne_eq, hemp, not_false_eq_true, if_true, hd]
            exact List.Forall₂.cons (fun _ => rfl) ih1
          · intro s
            simp only [fix_embedded_chunks, hs]
            simp only [ne_eq, hemp, not_false_eq_true, if_true, hd]
            by_cases hmem : sid ∈ (fix_embedded_chunks pages cs).2.2
            · rw [if_pos hmem]
              constructor
              · intro hm
                obtain ⟨c', hc', hconj⟩ := (ih2 s).mp hm
                exact ⟨c', List.mem_cons_of_mem _ hc', hconj⟩
              · rintro ⟨c', hc', h1, h2, h3⟩
                rcases List.mem_cons.mp hc' with rfl | hmem2
                · rw [hs] at h1
                  cases h1
                  exact hmem
                · exact (ih2 s).mpr ⟨c', hmem2, h1, h2, h3⟩
            · rw [if_neg hmem]
              constructor
              · intro hm
                rcases List.mem_cons.mp hm with rfl | hm2
                · exact ⟨c, List.mem_cons_self _ _, hs, hemp, hd⟩
                · obtain ⟨c', hc', hconj⟩ := (ih2 s).mp hm2
                  exact ⟨c', List.mem_cons_of_mem _ hc', hconj⟩
              · rintro ⟨c', hc', h1, h2, h3⟩
                rcases List.mem_cons.mp hc' with rfl | hmem2
                · rw [hs] at h1
                  cases h1
                  exact List.mem_cons_self _ _
                · exact List.mem_cons_of_mem _ ((ih2 s).mpr ⟨c', hmem2, h1, h2, h3⟩)
        | some v =>
          have hfr : ∀ c' : Chunk, chunkSidTruthy c = false → c' = c := by
            intro c' hf; rw [htr] at hf; cases hf
          constructor
          · simp only [fix_embedded_chunks, hs]
            simp only [ne_eq, hemp, not_false_eq_true, if_true, hd]
            by_cases hpn : c.pageNumber = some (v : Int)
            · simp only [hpn, not_true_eq_false, if_false]
              exact List.Forall₂.cons (hfr c) ih1
            · simp only [if_pos hpn]
              exact List.Forall₂.cons (hfr _) ih1
          · intro s
            simp only [fix_embedded_chunks, hs]
            simp only [ne_eq, hemp, not_false_eq_true, if_true, hd]
            have hmem_iff : s ∈ (fix_embedded_chunks pages cs).2.2 ↔
                ∃ c' ∈ c :: cs, c'.sectionId = some s ∧ s ≠ "" ∧ dictGet pages s = none := by
              constructor
              · intro hm
                obtain ⟨c', hc', hconj⟩ := (ih2 s).mp hm
                exact ⟨c', List.mem_cons_of_mem _ hc', hconj⟩
              · rintro ⟨c', hc', h1, h2, h3⟩
                rcases List.mem_cons.mp hc' with rfl | hmem2
                · rw [hs] at h1
                  cases h1
                  rw [hd] at h3
                  cases h3
                · exact (ih2 s).mpr ⟨c', hmem2, h1, h2, h3⟩
            by_cases hpn : c.pageNumber = some (v : Int)
            · simp only [hpn, not_true_eq_false, if_false]
              exact hmem_iff
            · simp only [if_pos hpn]
              exact hmem_iff

/-- Witness for C10: a chunk list with an absent, an empty and an unmapped
identifier — only the unmapped nonempty identifier is reported missing. -/
theorem c10_witness :
    "2.2" ∈ (fix_embedded_chunks [("1.1", 5)]
      [⟨none, some 7, "a"⟩, ⟨some "", some 8, "b"⟩, ⟨some "2.2", some 9, "c"⟩]).2.2 ∧
    "" ∉ (fix_embedded_chunks [("1.1", 5)]
      [⟨none, some 7, "a"⟩, ⟨some "", some 8, "b"⟩, ⟨some "2.2", some 9, "c"⟩]).2.2 := by
  constructor
  · exact ((c10_frame_missing [("1.1", 5)]
      [⟨none, some 7, "a"⟩, ⟨some "", some 8, "b"⟩, ⟨some "2.2", some 9, "c"⟩]).2 "2.2").mpr
      ⟨⟨some "2.2", some 9, "c"⟩, by decide, rfl, by decide, by decide⟩
  · intro hmem
    obtain ⟨c, hc, h1, h2, h3⟩ := ((c10_frame_missing [("1.1", 5)]
      [⟨none, some 7, "a"⟩, ⟨some "", some 8, "b"⟩, ⟨some "2.2", some 9, "c"⟩]).2 "").mp hmem
    exact h2 rfl

/-! ## Claim C7 -/

theorem splitChar_ne_nil (c : Char) (l : List Char) : splitChar c l ≠ [] := by
  induction l with
  | nil => simp [splitChar]
  | cons a as ih =>
    simp only [splitChar]
    by_cases h : a = c
    · simp [h]
    · simp only [if_neg h]
      cases hsc : splitChar c as with
      | nil => simp
      | cons x xs => simp

theorem splitChar_not_mem {c : Char} {l : List Char} (h : c ∉ l) : splitChar c l = [l] := by
  induction l with
  | nil => rfl
  | cons a as ih =>
    have hac : ¬(a = c) := fun he => h (List.mem_cons.mpr (Or.inl he.symm))
    have hrest : c ∉ as := fun hm => h (List.mem_cons_of_mem _ hm)
    simp [splitChar, if_neg hac, ih hrest]

theorem splitChar_append_cons {c : Char} {p : List Char} (t : List Char) (h : c ∉ p) :
    splitChar c (p ++ c :: t) = p :: splitChar c t := by
  induction p with
  | nil => simp [splitChar]
  | cons a p ih =>
    have hac : ¬(a = c) := fun he => h (List.mem_cons.mpr (Or.inl he.symm))
    have hp : c ∉ p := fun hm => h (List.mem_cons_of_mem _ hm)
    simp only [List.cons_append, splitChar, if_neg hac, List.append_eq]
    rw [ih hp]

theorem splitChar_intercalate {c : Char} (ps : List (List Char)) (hne : ps ≠ [])
    (hp : ∀ p ∈ ps, c ∉ p) : splitChar c (intercalateChar c ps) = ps := by
  induction ps with
  | nil => exact absurd rfl hne
  | cons p qs ih =>
    cases qs with
    | nil => simp [intercalateChar, splitChar_not_mem (hp p (by simp))]
    | cons q ps2 =>
      have h1 : c ∉ p := hp p (by simp)
      have h2 : ∀ r ∈ q :: ps2, c ∉ r := fun r hr => hp r (List.mem_cons_of_mem _ hr)
      rw [show intercalateChar c (p :: q :: ps2) = p ++ c :: intercalateChar c (q :: ps2)
            from rfl,
          splitChar_append_cons _ h1, ih (by simp) h2]

theorem count_intercalateChar {c : Char} (ps : List (List Char))
    (hp : ∀ p ∈ ps, c ∉ p) :
    (intercalateChar c ps).count c = ps.length - 1 := by
  induction ps with
  | nil => simp [intercalateChar]
  | cons p qs ih =>
    cases qs with
    | nil => simp [intercalateChar, List.count_eq_zero.mpr (hp p (by simp))]
    | cons q ps2 =>
      have h1 : c ∉ p := hp p (by simp)
      have h2 : ∀ r ∈ q :: ps2, c ∉ r := fun r hr => hp r (List.mem_cons_of_mem _ hr)
      rw [show intercalateChar c (p :: q :: ps2) = p ++ c :: intercalateChar c (q :: ps2)
            from rfl]
      rw [List.count_append, List.count_cons_self, ih h2,
          List.count_eq_zero.mpr h1]
      simp only [List.length_cons]
      omega

theorem dotfree_of_digits {p : List Char} (h : p.all (·.isDigit) = true) : '.' ∉ p := by
  intro hm
  exact absurd (List.all_eq_true.mp h '.' hm) (by decide)

theorem startswith_annex_false_of_digit {d : Char} (t : List Char) (h : d.isDigit = true) :
    pyStartswith "Annex".data (d :: t) = false := by
  have hne : ('A' == d) = false := by
    refine beq_eq_false_iff_ne.mpr fun he => ?_
    rw [← he] at h
    exact absurd h (by decide)
  rw [show "Annex".data = 'A' :: ['n', 'n', 'e', 'x'] from rfl]
  simp [pyStartswith, hne]

theorem intercalateChar_head (c d : Char) (p : List Char) (ps : List (List Char)) :
    ∃ t, intercalateChar c ((d :: p) :: ps) = d :: t := by
  cases ps with
  | nil => exact ⟨p, rfl⟩
  | cons q qs => exact ⟨p ++ c :: intercalateChar c (q :: qs), rfl⟩

theorem ciEq_mem {p q : List Char} (h : ciEq p q = true) :
    ∀ x ∈ p, ∃ y ∈ q, toLowerAscii x = toLowerAscii y := by
  induction p generalizing q with
  | nil => intro x hx; cases hx
  | cons a as ih =>
    cases q with
    | nil => simp [ciEq] at h
    | cons b bs =>
      simp only [ciEq, Bool.and_eq_true, beq_iff_eq] at h
      intro x hx
      rcases List.mem_cons.mp hx with rfl | hmem
      · exact ⟨b, List.mem_cons_self _ _, h.1⟩
      · obtain ⟨y, hy, he⟩ := ih h.2 x hmem
        exact ⟨y, List.mem_cons_of_mem _ hy, he⟩

theorem annex_shape_no_dot {sid : String} (h : AnnexIdShape sid) : '.' ∉ sid.data := by
  obtain ⟨pre, ws, a, heq, hci, hwsne, hws, ha⟩ := h
  rw [heq]
  intro hm
  rcases List.mem_append.mp hm with hm2 | hlast
  · rcases List.mem_append.mp hm2 with hpre | hws2
    · obtain ⟨y, hy, he⟩ := ciEq_mem hci '.' hpre
      rw [show "annex".data = ['a', 'n', 'n', 'e', 'x'] from rfl] at hy
      simp only [List.mem_cons, List.not_mem_nil, or_false] at hy
      rcases hy with rfl | rfl | rfl | rfl | rfl <;> exact absurd he (by decide)
    · exact absurd (hws '.' hws2) (by decide)
  · simp only [List.mem_singleton] at hlast
    rw [← hlast] at ha
    exact absurd ha (by decide)

/-- Claim C7: a dotted numeric identifier has depth equal to its component
count and, with at least two components, its parent is the identifier with
the last component removed (a single-component identifier has no parent);
an annex identifier always has depth 1 and no parent. -/
theorem c7_depth_parent (sid : String) (ps : List (List Char)) :
    (NumericIdParts ps sid →
      sectionDepth sid = ps.length ∧
      (2 ≤ ps.length →
        get_parent_section_id sid
          = some (String.mk (intercalateChar '.' ps.dropLast))) ∧
      (ps.length = 1 → get_parent_section_id sid = none)) ∧
    (AnnexIdShape sid → sectionDepth sid = 1 ∧ get_parent_section_id sid = none) := by
  constructor
  · rintro ⟨hne, hparts, heq⟩
    have hsw : pyStartswith "Annex".data sid.data = false := by
      cases ps with
      | nil => exact absurd rfl hne
      | cons p qs =>
        obtain ⟨hpne, hpd⟩ := hparts p (List.mem_cons_self _ _)
        cases p with
        | nil => exact absurd rfl hpne
        | cons d p2 =>
          have hd : d.isDigit = true :=
            List.all_eq_true.mp hpd d (List.mem_cons_self _ _)
          obtain ⟨t, ht⟩ := intercalateChar_head '.' d p2 qs
          rw [heq, ht]
          exact startswith_annex_false_of_digit t hd
    have hdotfree : ∀ p ∈ ps, '.' ∉ p := fun p hp => dotfree_of_digits (hparts p hp).2
    have hlenpos : 1 ≤ ps.length := List.length_pos.mpr hne
    refine ⟨?_, ?_, ?_⟩
    · unfold sectionDepth
      rw [hsw]
      simp only [Bool.false_eq_true, if_false]
      rw [heq, count_intercalateChar ps hdotfree]
      omega
    · intro hlen
      unfold get_parent_section_id
      rw [hsw]
      simp only [Bool.false_eq_true, if_false]
      rw [heq, splitChar_intercalate ps hne hdotfree, if_neg (by omega)]
    · intro hlen
      unfold get_parent_section_id
      rw [hsw]
      simp only [Bool.false_eq_true, if_false]
      rw [heq, splitChar_intercalate ps hne hdotfree, if_pos (by omega)]
  · intro h
    have hnd : '.' ∉ sid.data := annex_shape_no_dot h
    constructor
    · unfold sectionDepth
      by_cases hsw : pyStartswith "Annex".data sid.data = true
      · rw [if_pos hsw]
      · rw [if_neg hsw, List.count_eq_zero.mpr hnd]
    · unfold get_parent_section_id
      by_cases hsw : pyStartswith "Annex".data sid.data = true
      · rw [if_pos hsw]
      · rw [if_neg hsw, splitChar_not_mem hnd, if_pos (by simp)]

/-- Witness for C7 at the identifiers 12.3.2, 12 and Annex A. -/
theorem c7_witness :
    sectionDepth "12.3.2" = 3 ∧ get_parent_section_id "12.3.2" = some "12.3" ∧
    sectionDepth "12" = 1 ∧ get_parent_section_id "12" = none ∧
    sectionDepth "Annex A" = 1 ∧ get_parent_section_id "Annex A" = none := by
  have hnum : NumericIdParts [['1', '2'], ['3'], ['2']] "12.3.2" :=
    ⟨by decide, by decide, by decide⟩
  have h1 := (c7_depth_parent "12.3.2" [['1', '2'], ['3'], ['2']]).1 hnum
  have hnum2 : NumericIdParts [['1', '2']] "12" := ⟨by decide, by decide, by decide⟩
  have h2 := (c7_depth_parent "12" [['1', '2']]).1 hnum2
  have hann : AnnexIdShape "Annex A" :=
    ⟨"Annex".data, [' '], 'A', by decide, by decide, by decide, by decide, by decide⟩
  have h3 := (c7_depth_parent "Annex A" []).2 hann
  refine ⟨h1.1, ?_, h2.1, h2.2.2 rfl, h3.1, h3.2⟩
  rw [h1.2.1 (by decide)]
  decide

/-! ## Claim C2 -/

theorem blocksAux_parts_join (lines : List (List Char)) :
    (blocksAux lines).1 ++ (blocksAux lines).2.join = lines := by
  induction lines with
  | nil => rfl
  | cons l ls ih =>
    cases hm : extMatchHeader (pyStrip l) with
    | some p => simp [blocksAux, hm, ih]
    | none => simp [blocksAux, hm, ih]

theorem blocksAux_join_dropWhile (lines : List (List Char)) :
    (blocksAux lines).2.join
      = lines.dropWhile (fun l => (extMatchHeader (pyStrip l)).isNone) := by
  induction lines with
  | nil => rfl
  | cons l ls ih =>
    cases hm : extMatchHeader (pyStrip l) with
    | some p =>
      simp only [blocksAux, hm, Option.isSome_some, if_true, List.join_cons,
        List.dropWhile_cons, Option.isNone_some, Bool.false_eq_true, if_false,
        List.cons_append]
      rw [blocksAux_parts_join ls]
    | none =>
      simp only [blocksAux, hm, Option.isSome_none, Bool.false_eq_true, if_false,
        List.dropWhile_cons, Option.isNone_none, if_true]
      exact ih

theorem extRun_content_open (ls : List (List Char)) :
    ∀ (st : ExtSt) (o : OpenSec), st.current = some o →
    (extRun st ls).map Section.content =
      st.sections.map Section.content ++
        (contentOfBlock (st.content ++ (blocksAux ls).1) ::
          (blocksAux ls).2.map contentOfBlock) := by
  induction ls with
  | nil =>
    intro st o hc
    simp [extRun, extFinish, hc, blocksAux, closeSec]
  | cons l ls ih =>
    intro st o hc
    rw [show extRun st (l :: ls) = extRun (extStep st l) ls from rfl]
    cases hm : extMatchHeader (pyStrip l) with
    | none =>
      have hstep : extStep st l =
          { sections := st.sections, current := some o,
            content := st.content ++ [l], page := extUpdatePage st.page l } := by
        simp only [extStep, hm, hc]
      have hih := ih
        { sections := st.sections, current := some o,
          content := st.content ++ [l], page := extUpdatePage st.page l } o rfl
      rw [hstep, hih]
      simp [blocksAux, hm, List.append_assoc]
    | some p =>
      obtain ⟨sid, title⟩ := p
      have hstep : extStep st l =
          { sections := st.sections ++ [closeSec o st.content (extUpdatePage st.page l)],
            current := some (mkOpen sid title (extUpdatePage st.page l)),
            content := [l],
            page := extUpdatePage st.page l } := by
        simp only [extStep, hm, hc]
      have hih := ih
        { sections := st.sections ++ [closeSec o st.content (extUpdatePage st.page l)],
          current := some (mkOpen sid title (extUpdatePage st.page l)),
          content := [l],
          page := extUpdatePage st.page l } (mkOpen sid title (extUpdatePage st.page l)) rfl
      rw [hstep, hih]
      simp [blocksAux, hm, closeSec, List.map_append]

theorem extRun_content_none (ls : List (List Char)) :
    ∀ (st : ExtSt), st.current = none →
    (extRun st ls).map Section.content =
      st.sections.map Section.content ++ (blocksAux ls).2.map contentOfBlock := by
  induction ls with
  | nil =>
    intro st hc
    simp [extRun, extFinish, hc, blocksAux]
  | cons l ls ih =>
    intro st hc
    rw [show extRun st (l :: ls) = extRun (extStep st l) ls from rfl]
    cases hm : extMatchHeader (pyStrip l) with
    | none =>
      have hstep : extStep st l =
          { sections := st.sections, current := none,
            content := st.content, page := extUpdatePage st.page l } := by
        simp only [extStep, hm, hc]
      have hih := ih
        { sections := st.sections, current := none,
          content := st.content, page := extUpdatePage st.page l } rfl
      rw [hstep, hih]
      simp [blocksAux, hm]
    | some p =>
      obtain ⟨sid, title⟩ := p
      have hstep : extStep st l =
          { sections := st.sections,
            current := some (mkOpen sid title (extUpdatePage st.page l)),
            content := [l],
            page := extUpdatePage st.page l } := by
        simp only [extStep, hm, hc]
      have hih := extRun_content_open ls
        { sections := st.sections,
          current := some (mkOpen sid title (extUpdatePage st.page l)),
          content := [l],
          page := extUpdatePage st.page l } (mkOpen sid title (extUpdatePage st.page l)) rfl
      rw [hstep, hih]
      simp [blocksAux, hm]

/-- Claim C2 as stated is false: section content is stored stripped of
leading and trailing whitespace, so the concatenation of the content fields
need not reproduce the text from the first header onward.  On the input
`"**1** **T**\n"` the single section's content is `"**1** **T**"`: the
trailing empty line is lost, whether the contents are joined with newlines
or concatenated directly. -/
theorem c2_counterexample :
    parse_sections "**1** **T**\n" 1 =
      [{ sectionId := "1", title := "T", pageStart := 1, pageEnd := 1,
         content := "**1** **T**", depth := 1, parentId := none }] ∧
    String.intercalate "\n" ((parse_sections "**1** **T**\n" 1).map Section.content)
      ≠ "**1** **T**\n" ∧
    String.join ((parse_sections "**1** **T**\n" 1).map Section.content)
      ≠ "**1** **T**\n" := by
  refine ⟨by decide, by decide, by decide⟩

/-- Claim C2, amended: the lines from the first header-matching line to the
end of input are partitioned, in order, into one consecutive block per
returned section (no line lost or duplicated), and each section's content is
the newline-join of its block stripped of leading and trailing whitespace —
reconstruction holds exactly up to this per-section stripping. -/
theorem c2_amended_theorem (mdText : String) (startPage : Nat) :
    ∃ blocks : List (List (List Char)),
      blocks.join = (splitChar '\n' mdText.data).dropWhile
        (fun l => (extMatchHeader (pyStrip l)).isNone) ∧
      (parse_sections mdText startPage).length = blocks.length ∧
      (parse_sections mdText startPage).map Section.content
        = blocks.map contentOfBlock := by
  have h2 : (parse_sections mdText startPage).map Section.content
      = (blocksAux (splitChar '\n' mdText.data)).2.map contentOfBlock := by
    have h := extRun_content_none (splitChar '\n' mdText.data)
      { sections := [], current := none, content := [], page := startPage } rfl
    simpa [parse_sections, parseSectionsLines] using h
  refine ⟨(blocksAux (splitChar '\n' mdText.data)).2, blocksAux_join_dropWhile _, ?_, h2⟩
  have hlen := congrArg List.length h2
  simpa using hlen

/-! ## Claim C9 -/

theorem extStep_inv (st : ExtSt) (line : List Char) (h : ExtInv st) :
    ExtInv (extStep st line) := by
  obtain ⟨h1, h2, h3, h4⟩ := h
  have hpage : st.page ≤ extUpdatePage st.page line := le_extUpdatePage _ _
  cases hm : extMatchHeader (pyStrip line) with
  | none =>
    cases hc : st.current with
    | none =>
      have hstep : extStep st line =
          { sections := st.sections, current := none,
            content := st.content, page := extUpdatePage st.page line } := by
        simp only [extStep, hm, hc]
      rw [hstep]
      refine ⟨h1, h2, ?_, fun _ => h4 hc⟩
      intro o ho
      cases ho
    | some o =>
      have hstep : extStep st line =
          { sections := st.sections, current := some o,
            content := st.content ++ [line], page := extUpdatePage st.page line } := by
        simp only [extStep, hm, hc]
      rw [hstep]
      refine ⟨h1, h2, ?_, ?_⟩
      · intro o2 ho2
        obtain rfl : o = o2 := Option.some.inj ho2
        exact ⟨Nat.le_trans (h3 o hc).1 hpage, (h3 o hc).2⟩
      · intro hnone
        cases hnone
  | some p =>
    obtain ⟨sid, title⟩ := p
    cases hc : st.current with
    | none =>
      have hsecs : st.sections = [] := h4 hc
      have hstep : extStep st line =
          { sections := st.sections,
            current := some (mkOpen sid title (extUpdatePage st.page line)),
            content := [line],
            page := extUpdatePage st.page line } := by
        simp only [extStep, hm, hc]
      rw [hstep]
      refine ⟨h1, h2, ?_, ?_⟩
      · intro o2 ho2
        obtain rfl := Option.some.inj ho2
        refine ⟨Nat.le_refl _, ?_⟩
        intro x hx
        rw [hsecs] at hx
        cases hx
      · intro hnone
        cases hnone
    | some o =>
      have hstep : extStep st line =
          { sections := st.sections ++
              [closeSec o st.content (extUpdatePage st.page line)],
            current := some (mkOpen sid title (extUpdatePage st.page line)),
            content := [line],
            page := extUpdatePage st.page line } := by
        simp only [extStep, hm, hc]
      rw [hstep]
      refine ⟨?_, ?_, ?_, ?_⟩
      · intro s hs
        rcases List.mem_append.mp hs with hold | hnew
        · exact h1 s hold
        · rw [List.mem_singleton] at hnew
          rw [hnew]
          exact Nat.le_trans (h3 o hc).1 hpage
      · rw [List.chain'_append]
        refine ⟨h2, List.chain'_singleton _, ?_⟩
        intro x hx y hy
        rw [List.head?_cons, Option.mem_some_iff] at hy
        rw [← hy]
        exact (h3 o hc).2 x hx
      · intro o2 ho2
        obtain rfl := Option.some.inj ho2
        refine ⟨Nat.le_refl _, ?_⟩
        intro x hx
        rw [List.getLast?_concat, Option.mem_some_iff] at hx
        rw [← hx]
        rfl
      · intro hnone
        cases hnone

theorem extFinish_chain (st : ExtSt) (h : ExtInv st) :
    (∀ s ∈ extFinish st, s.pageStart ≤ s.pageEnd) ∧
    List.Chain' (fun a b => a.pageEnd = b.pageStart) (extFinish st) := by
  obtain ⟨h1, h2, h3, h4⟩ := h
  cases hc : st.current with
  | none =>
    rw [show extFinish st = st.sections by simp [extFinish, hc]]
    exact ⟨h1, h2⟩
  | some o =>
    rw [show extFinish st = st.sections ++ [closeSec o st.content st.page] by
      simp [extFinish, hc]]
    constructor
    · intro s hs
      rcases List.mem_append.mp hs with hold | hnew
      · exact h1 s hold
      · rw [List.mem_singleton] at hnew
        rw [hnew]
        exact (h3 o hc).1
    · rw [List.chain'_append]
      refine ⟨h2, List.chain'_singleton _, ?_⟩
      intro x hx y hy
      rw [List.head?_cons, Option.mem_some_iff] at hy
      rw [← hy]
      exact (h3 o hc).2 x hx

theorem extRun_chain (ls : List (List Char)) :
    ∀ st : ExtSt, ExtInv st →
    (∀ s ∈ extRun st ls, s.pageStart ≤ s.pageEnd) ∧
    List.Chain' (fun a b => a.pageEnd = b.pageStart) (extRun st ls) := by
  induction ls with
  | nil => exact fun st h => extFinish_chain st h
  | cons l ls ih => exact fun st h => ih (extStep st l) (extStep_inv st l h)

/-- Claim C9: every section satisfies pageStart ≤ pageEnd, and consecutive
sections chain — each section's pageEnd equals the next section's
pageStart, so page bounds never decrease along the output. -/
theorem c9_page_monotone (lines : List (List Char)) (startPage : Nat) :
    (∀ s ∈ parseSectionsLines lines startPage, s.pageStart ≤ s.pageEnd) ∧
    List.Chain' (fun a b => a.pageEnd = b.pageStart)
      (parseSectionsLines lines startPage) := by
  apply extRun_chain
  refine ⟨?_, ?_, ?_, fun _ => rfl⟩
  · intro s hs
    cases hs
  · exact List.chain'_nil
  · intro o ho
    cases ho

/-- Witness for C9 on an input with a page marker between two headers. -/
theorem c9_witness :
    ((parse_sections "**1** **T**\n2\nx\n**2** **U**" 1).get ⟨0, by decide⟩).pageStart ≤
      ((parse_sections "**1** **T**\n2\nx\n**2** **U**" 1).get ⟨0, by decide⟩).pageEnd ∧
    List.Chain' (fun a b => a.pageEnd = b.pageStart)
      (parse_sections "**1** **T**\n2\nx\n**2** **U**" 1) := by
  have h := c9_page_monotone (splitChar '\n' ("**1** **T**\n2\nx\n**2** **U**" : String).data) 1
  exact ⟨h.1 _ (List.get_mem _ _ _), h.2⟩

end OoxmlIngest
